import Mathlib

/-!
Verification development for the unclecollage Netlify functions
(list-posts / admin-login / update-visible / get-post / create-post /
delete-post / export-archive).

The JavaScript handlers are shallowly embedded as Lean functions.  JSON
values are modelled by `JValue`; JavaScript exceptions are modelled by
`Option` (`none` = a thrown exception, caught at the nearest `try`).
Platform primitives that live outside the repository (node `crypto`
HMAC, `JSON.parse`, `Buffer` base64 decoding, and the `jsonwebtoken`
library used by admin-login) are abstracted as a `Platform` record; all
logic written in the repository itself (padding, character replacement,
splitting, the selection fold, URL construction, the export loop) is
embedded directly.
-/

/-- JSON values, as produced by JSON.parse.  Numbers are modelled as
integers: every number handled by this system is an integer (storage
version numbers and epoch-second expiry stamps). -/
inductive JValue where
  | null : JValue
  | bool : Bool → JValue
  | num : Int → JValue
  | str : String → JValue
  | arr : List JValue → JValue
  | obj : List (String × JValue) → JValue

/-- Field lookup in a JSON object, first match wins. -/
def lookupField : List (String × JValue) → String → Option JValue
  | [], _ => none
  | (k, v) :: rest, key => if k = key then some v else lookupField rest key

/-- JavaScript property access `v[k]`.  The outer `none` models the
TypeError thrown when reading a property of `null`; the inner `none`
models the value `undefined`. -/
def jsProp (v : JValue) (k : String) : Option (Option JValue) :=
  match v with
  | .null => none
  | .obj fields => some (lookupField fields k)
  | _ => some none

/-- JavaScript truthiness of a JSON value (`undefined`, i.e. an absent
property, is falsy at every use site). -/
def jsTruthy : JValue → Bool
  | .null => false
  | .bool b => b
  | .num n => n != 0
  | .str s => s ≠ ""
  | .arr _ => true
  | .obj _ => true

/-- Decimal integer literal parsing for JS `ToNumber` on strings
(optional sign, decimal digits; the empty or blank string is 0; any
other string is NaN, modelled as `none`).  Fractional and exponent
forms do not occur in this system. -/
def digitsToNat : List Char → Option Nat
  | [] => none
  | [c] => if c.isDigit then some (c.toNat - 48) else none
  | c :: cs =>
    if c.isDigit then
      match digitsToNat cs with
      | some n => some ((c.toNat - 48) * 10 ^ cs.length + n)
      | none => none
    else none

/-- Characters treated as whitespace by JS string trimming (ASCII
range; no other whitespace occurs in this system). -/
def isJsSpace (c : Char) : Bool :=
  c = ' ' || c = '\t' || c = '\n' || c = '\r'

/-- Models JS `ToNumber` on a string: trim, then a signed decimal
integer; empty after trimming is 0; otherwise NaN (`none`). -/
def jsStrToNumber (s : String) : Option Int :=
  let l := (s.data.dropWhile isJsSpace).reverse.dropWhile isJsSpace |>.reverse
  match l with
  | [] => some 0
  | c :: cs =>
    if c = '-' then
      match digitsToNat cs with
      | some n => some (-(n : Int))
      | none => none
    else
      match digitsToNat l with
      | some n => some (n : Int)
      | none => none

/-- Models JS `ToNumber` coercion of a JSON value; `none` is NaN.
Arrays and objects coerce through string conversion in JS; only the
empty array case is kept exactly, other compound values are mapped to
NaN (none of them carries an `exp` claim in this system). -/
def jsToNumber : JValue → Option Int
  | .null => some 0
  | .bool b => some (if b then 1 else 0)
  | .num n => some n
  | .str s => jsStrToNumber s
  | .arr [] => some 0
  | .arr _ => none
  | .obj _ => none

/-- Models the JS comparison `nowMs >= e * 1000` under `ToNumber`
coercion of `e`; any comparison against NaN is false. -/
def jsNumTimes1000Le (nowMs : Int) (e : JValue) : Bool :=
  match jsToNumber e with
  | some n => nowMs ≥ n * 1000
  | none => false

/-- Platform primitives external to the repository. -/
structure Platform where
  /-- Models `JSON.parse(Buffer.from(s, 'base64').toString('utf8'))`
  applied to a padded standard-alphabet base64 string; `none` models a
  thrown decoding/parsing exception. -/
  parseJsonB64 : String → Option JValue
  /-- Models `crypto.createHmac('sha256', secret).update(msg).digest('base64')`
  (standard base64 alphabet, with padding). -/
  hmacSha256B64 : String → String → String
  /-- Models the unpadded base64url JSON encoding used when signing
  (spec §4.1); inverse of base64url decoding + JSON.parse. -/
  encB64UrlJson : JValue → String

/-- The signature post-processing both signers and all verifiers apply:
`digest('base64').replace(/=/g,'').replace(/\+/g,'-').replace(/\//g,'_')`. -/
def b64ToB64Url (s : String) : String :=
  ⟨(s.data.filter (fun c => c ≠ '=')).map
    (fun c => if c = '+' then '-' else if c = '/' then '_' else c)⟩

/-- The repository's base64url-to-base64 step inside `decodeB64Json`:
compute padding from the length mod 4, map `-` to `+` and `_` to `/`,
append the padding. -/
def b64UrlToB64 (s : String) : String :=
  let pad : String :=
    if s.data.length % 4 = 2 then "==" else if s.data.length % 4 = 3 then "=" else ""
  (⟨s.data.map (fun c => if c = '-' then '+' else if c = '_' then '/' else c)⟩ : String) ++ pad

/-- Embeds `decodeB64Json` from list-posts.js / update-visible.js (and
the identical `b64urlJson` of create-post.js). -/
def decodeB64Json (P : Platform) (s : String) : Option JValue :=
  P.parseJsonB64 (b64UrlToB64 s)

/-- Splitting a character list on `.`, with JS `String.split('.')`
semantics (empty fragments preserved, the empty string yields one empty
fragment). -/
def splitDots : List Char → List (List Char)
  | [] => [[]]
  | c :: cs =>
    if c = '.' then [] :: splitDots cs
    else
      match splitDots cs with
      | t :: ts => (c :: t) :: ts
      | [] => [[c]]

/-- Embeds `token.split('.')`. -/
def jsSplitDot (s : String) : List String :=
  (splitDots s.data).map String.mk

/-- Embeds `verifyJWT(token, secret)` as written identically in
list-posts.js, update-visible.js and create-post.js.  `nowMs` is the
value of `Date.now()`.  `const [h,p,s] = token.split('.')` binds the
first three fragments (missing fragments are `undefined`, which the
falsy check conflates with the empty string, with identical control
flow). -/
def verifyJWT (P : Platform) (nowMs : Int) (token secret : String) : Option JValue :=
  let parts := jsSplitDot token
  let h := parts.getD 0 ""
  let p := parts.getD 1 ""
  let s := parts.getD 2 ""
  if h = "" || p = "" || s = "" then none
  else
    match decodeB64Json P h with
    | none => none
    | some header =>
      match jsProp header "alg" with
      | some (some (.str "HS256")) =>
        let expected := b64ToB64Url (P.hmacSha256B64 secret (h ++ "." ++ p))
        if expected ≠ s then none
        else
          match decodeB64Json P p with
          | none => none
          | some payload =>
            match jsProp payload "exp" with
            | none => none
            | some none => some payload
            | some (some e) =>
              if jsTruthy e && jsNumTimes1000Le nowMs e then none else some payload
      | _ => none

/-- Embeds `requireAdmin(request)` (list-posts.js / update-visible.js /
create-post.js) from the point after the `Bearer` pattern match:
`bearerToken` is the captured token, `none` when the authorization
header is missing or does not match. -/
def requireAdmin (P : Platform) (nowMs : Int) (bearerToken : Option String)
    (secret : String) : Option JValue :=
  match bearerToken with
  | none => none
  | some tok =>
    if secret = "" then none
    else
      match verifyJWT P nowMs tok secret with
      | none => none
      | some payload =>
        match jsProp payload "role" with
        | some (some (.str "admin")) => some payload
        | _ => none

/-- Modelled from the spec: the admin-login handler signs its token with
the external `jsonwebtoken` library (`jwt.sign({role:'admin'}, secret,
{expiresIn})`), which is not part of this repository; spec §4.1
specifies `issue` as building header `{alg:"HS256"}`. -/
def issueHeader : JValue := .obj [("alg", .str "HS256")]

/-- Modelled from the spec: the issue payload `{role:"admin",
exp: now+ttl}` with `now` and `ttl` in seconds. -/
def issuePayload (nowSec ttl : Int) : JValue :=
  .obj [("role", .str "admin"), ("exp", .num (nowSec + ttl))]

/-- Modelled from the spec: `issue(secret, ttlSeconds)` — header and
payload encoded as unpadded base64url JSON, joined by `.`, followed by
`.` and the base64url HMAC-SHA256 of the first two parts. -/
def issueToken (P : Platform) (nowSec ttl : Int) (secret : String) : String :=
  let h := P.encB64UrlJson issueHeader
  let p := P.encB64UrlJson (issuePayload nowSec ttl)
  let sig := b64ToB64Url (P.hmacSha256B64 secret (h ++ "." ++ p))
  h ++ "." ++ p ++ "." ++ sig

/-- A stored-object descriptor as returned by the storage list API
(`cloudinary.api.resources`): a key and its version number. -/
structure RawResource where
  public_id : String
  version : Nat

/-- Character-list prefix test. -/
def listIsPrefixOf : List Char → List Char → Bool
  | [], _ => true
  | _ :: _, [] => false
  | a :: as, b :: bs => a = b && listIsPrefixOf as bs

/-- Embeds the case-insensitive test `/\.json$/i.test(pid)`. -/
def hasJsonExt (pid : String) : Bool :=
  listIsPrefixOf ".json".data.reverse ((pid.data.map Char.toLower).reverse)

/-- Drops an expected (lowercase) pattern from the front of an input,
comparing case-insensitively; `none` when the input does not start with
the pattern. -/
def dropPrefixCI : List Char → List Char → Option (List Char)
  | [], rest => some rest
  | _ :: _, [] => none
  | p :: ps, c :: cs => if p = Char.toLower c then dropPrefixCI ps cs else none

/-- Splits a character list at its first `/`; `none` when there is no
slash. -/
def splitAtSlash : List Char → Option (List Char × List Char)
  | [] => none
  | c :: cs =>
    if c = '/' then some ([], cs)
    else
      match splitAtSlash cs with
      | none => none
      | some (seg, rest) => some (c :: seg, rest)

/-- Embeds the key filter `/^collages\/([^/]+)\/data(?:\.json)?$/i`:
the prefix `collages/`, a non-empty slash-free slug segment, then
exactly `data` or `data.json`, case-insensitively. -/
def matchesDataKey (pid : String) : Bool :=
  match dropPrefixCI "collages/".data pid.data with
  | none => false
  | some rest =>
    match splitAtSlash rest with
    | none => false
    | some (seg, after) =>
      seg ≠ [] &&
        (after.map Char.toLower = "data".data || after.map Char.toLower = "data.json".data)

/-- Embeds one comparison step of the selection fold, shared verbatim
by list-posts.js (STEP 2) and update-visible.js: replace the current
choice when it carries the `.json` suffix and the incoming key does
not, otherwise when the incoming version is strictly greater. -/
def chooseStep (current r : RawResource) : RawResource :=
  let curHasJson := hasJsonExt current.public_id
  let newHasJson := hasJsonExt r.public_id
  if curHasJson && !newHasJson then r
  else if r.version > current.version then r
  else current

/-- Embeds the `chosen` selection loop of update-visible.js (and the
per-slug fold of list-posts.js): scan the listed resources in order,
keep only keys matching the data-key pattern, and fold them with
`chooseStep`; `none` when no candidate matches. -/
def chooseResource (resources : List RawResource) : Option RawResource :=
  resources.foldl
    (fun chosen r =>
      if matchesDataKey r.public_id then
        match chosen with
        | none => some r
        | some current => some (chooseStep current r)
      else chosen)
    none

/-- Embeds `chosen.public_id.replace(/\.json$/i, '')` — the canonical
key the visibility write-back uploads to (update-visible.js step 4). -/
def canonicalPid (pid : String) : String :=
  if hasJsonExt pid then ⟨pid.data.take (pid.data.length - 5)⟩ else pid

/-- Characters `encodeURIComponent` leaves unescaped. -/
def isUriUnreserved (c : Char) : Bool :=
  c.isAlphanum || c = '-' || c = '_' || c = '.' || c = '!' || c = '~' ||
    c = '*' || c = Char.ofNat 39 || c = '(' || c = ')'

/-- UTF-8 bytes of a character. -/
def utf8BytesOfChar (c : Char) : List Nat :=
  let n := c.toNat
  if n < 128 then [n]
  else if n < 2048 then [192 + n / 64, 128 + n % 64]
  else if n < 65536 then [224 + n / 4096, 128 + (n / 64) % 64, 128 + n % 64]
  else [240 + n / 262144, 128 + (n / 4096) % 64, 128 + (n / 64) % 64, 128 + n % 64]

/-- Uppercase hexadecimal digit. -/
def hexDigitChar (n : Nat) : Char :=
  if n < 10 then Char.ofNat (48 + n) else Char.ofNat (55 + n)

/-- Embeds JS `encodeURIComponent`. -/
def encodeURIComponent (s : String) : String :=
  ⟨s.data.foldr
    (fun c acc =>
      if isUriUnreserved c then c :: acc
      else (utf8BytesOfChar c).foldr
        (fun b a => '%' :: hexDigitChar (b / 16) :: hexDigitChar (b % 16) :: a) acc)
    []⟩

/-- The version-qualified raw-delivery URL shape used by the resolver
handlers: cloud name, `v` + exact version number, then the
URI-encoded key. -/
def versionQualifiedUrl (cloud : String) (version : Nat) (encodedKey : String) : String :=
  "https://res.cloudinary.com/" ++ cloud ++ "/raw/upload/v" ++ toString version ++
    "/" ++ encodedKey

/-- Embeds the `dataUrl` built in list-posts.js STEP 3 for a chosen
descriptor. -/
def listPostsDataUrl (cloud public_id : String) (version : Nat) : String :=
  "https://res.cloudinary.com/" ++ cloud ++ "/raw/upload/v" ++ toString version ++
    "/" ++ encodeURIComponent (public_id ++ (if hasJsonExt public_id then "" else ".json"))

/-- Embeds the `getUrl` built in update-visible.js step 2 for the
chosen descriptor. -/
def updateVisibleGetUrl (cloud public_id : String) (version : Nat) : String :=
  "https://res.cloudinary.com/" ++ cloud ++ "/raw/upload/v" ++ toString version ++
    "/" ++ encodeURIComponent (public_id ++ (if hasJsonExt public_id then "" else ".json"))

/-- Embeds the `dataUrl` built by get-post.js. -/
def getPostDataUrl (cloud slug : String) : String :=
  "https://res.cloudinary.com/" ++ cloud ++ "/raw/upload/collages/" ++
    encodeURIComponent slug ++ "/data.json"

/-- Embeds the `dataUrl` built by the export-archive handler (the slug
is interpolated without encoding there). -/
def exportDataUrl (cloud slug : String) : String :=
  "https://res.cloudinary.com/" ++ cloud ++ "/raw/upload/collages/" ++ slug ++
    "/data.json"

/-- One listed item as shaped by list-posts.js STEP 3: the slug, the
computed `visible` flag (`data.visible !== false`), and the fetched
record. -/
structure ListedItem where
  slug : String
  visible : Bool
  record : JValue

/-- Embeds the item shaping of list-posts.js STEP 3 for one fetched
record. -/
def mkListedItem (slug : String) (data : JValue) : ListedItem :=
  { slug := slug
    visible :=
      match jsProp data "visible" with
      | some (some (JValue.bool false)) => false
      | _ => true
    record := data }

/-- Embeds the showHidden gate of the list-posts handler: with
`showHidden=1` an admin payload is required (`none` = the 401 path),
otherwise the handler proceeds with `allowShowHidden = false`. -/
def allowShowHiddenOf (wantShowHidden : Bool) (admin : Option JValue) : Option Bool :=
  if wantShowHidden then
    match admin with
    | some _ => some true
    | none => none
  else some false

/-- Embeds list-posts.js STEP 4: drop failed fetches
(`results.filter(Boolean)`), sort descending by date key (the
comparator `new Date(b...) - new Date(a...)`, with `dateKey` modelling
date parsing), and drop `visible === false` records unless
`allowShowHidden`. -/
def finalItems (allowShowHidden : Bool) (dateKey : ListedItem → Int)
    (results : List (Option ListedItem)) : List ListedItem :=
  let items := List.insertionSort (fun a b => dateKey b ≤ dateKey a) (results.filterMap id)
  if !allowShowHidden then items.filter (fun it => it.visible) else items

/-- Character class kept by `safeName`'s strip step
`[^\p{L}\p{N} _-]`.  Unicode letter/number classes are modelled as:
ASCII alphanumerics, plus every non-ASCII codepoint (all non-ASCII
characters in this system's titles and captions are letters). -/
def isKeepChar (c : Char) : Bool :=
  c.isAlphanum || c = ' ' || c = '_' || c = '-' || 128 ≤ c.toNat

/-- Collapses runs of characters satisfying `p` into a single
replacement character (`replace(/X+/g, r)`); the flag records whether
the previous character was inside a run. -/
def collapseRuns (p : Char → Bool) (r : Char) : Bool → List Char → List Char
  | _, [] => []
  | inRun, c :: cs =>
    if p c then
      if inRun then collapseRuns p r true cs else r :: collapseRuns p r true cs
    else c :: collapseRuns p r false cs

/-- Embeds `safeName` from the export-archive handler: trim, collapse
whitespace runs to one space, strip characters outside
letters/digits/space/underscore/hyphen, collapse space runs to one
underscore, truncate to 80 characters, falling back to `untitled` when
empty. -/
def safeName (s : String) : String :=
  let trimmed := (s.data.dropWhile isJsSpace).reverse.dropWhile isJsSpace |>.reverse
  let collapsed := collapseRuns isJsSpace ' ' false trimmed
  let stripped := collapsed.filter isKeepChar
  let underscored := collapseRuns (fun c => c = ' ') '_' false stripped
  let sliced := underscored.take 80
  if sliced = [] then "untitled" else ⟨sliced⟩

/-- Embeds `String(idx).padStart(2, '0')`. -/
def pad2 (n : Nat) : String :=
  if n < 10 then "0" ++ toString n else toString n

/-- Tests one alternative of the extension regex at a position right
after a dot: the (lowercase) extension must match case-insensitively
and be followed by the end of the string or a `?`. -/
def extOk (e : List Char) (cs : List Char) : Bool :=
  match dropPrefixCI e cs with
  | none => false
  | some [] => true
  | some (c :: _) => c = '?'

/-- The alternation `jpg|jpeg|png|webp` tried in order at one dot. -/
def extMatchAt (cs : List Char) : Option (List Char) :=
  if extOk "jpg".data cs then some "jpg".data
  else if extOk "jpeg".data cs then some "jpeg".data
  else if extOk "png".data cs then some "png".data
  else if extOk "webp".data cs then some "webp".data
  else none

/-- Embeds the scan of `url.match(/\.(jpg|jpeg|png|webp)(\?.*)?$/i)`,
returning the lowercased captured extension of the leftmost match. -/
def scanExt : List Char → Option (List Char)
  | [] => none
  | c :: cs =>
    if c = '.' then
      match extMatchAt cs with
      | some e => some e
      | none => scanExt cs
    else scanExt cs

/-- One entry of the record's `items` array as the export-archive
handler reads it (`it.url`, `it.caption`; `none` models an absent
field). -/
structure ExportItem where
  url : Option String
  caption : Option String

/-- Embeds the export-archive item loop with its running index `idx`:
items without a url and items whose binary fetch fails (`!resp.ok`,
modelled by `fetchImg` returning `none`) are skipped; a zip entry
`<2-digit idx><_caption>.<ext>` is added and `idx` incremented only on
success.  Entry contents are the fetched bytes. -/
def exportEntriesGo (fetchImg : String → Option (List Nat)) (idx : Nat) :
    List ExportItem → List (String × List Nat)
  | [] => []
  | it :: rest =>
    match it.url with
    | none => exportEntriesGo fetchImg idx rest
    | some url =>
      if url = "" then exportEntriesGo fetchImg idx rest
      else
        match fetchImg url with
        | none => exportEntriesGo fetchImg idx rest
        | some buf =>
          let ext : String :=
            match scanExt url.data with
            | some e => ⟨e⟩
            | none => "jpg"
          let safeCaption : String :=
            ⟨(safeName (match it.caption with | some c => c | none => "")).data.take 40⟩
          let name :=
            pad2 idx ++ (if safeCaption ≠ "" then "_" ++ safeCaption else "") ++ "." ++ ext
          (name, buf) :: exportEntriesGo fetchImg (idx + 1) rest

/-- Embeds the whole item loop of the export-archive handler, starting
from `idx = 1`. -/
def exportEntries (fetchImg : String → Option (List Nat)) (items : List ExportItem) :
    List (String × List Nat) :=
  exportEntriesGo fetchImg 1 items

theorem splitDots_ne_nil (xs : List Char) : splitDots xs ≠ [] := by
  match xs with
  | [] => simp [splitDots]
  | c :: cs =>
    simp only [splitDots]
    split
    · simp
    · split <;> simp

theorem splitDots_append_dot (xs ys : List Char) :
    splitDots (xs ++ '.' :: ys) = splitDots xs ++ splitDots ys := by
  induction xs with
  | nil => simp [splitDots]
  | cons c cs ih =>
    by_cases hc : c = '.'
    · subst hc
      simp [splitDots, ih]
    · cases hcs : splitDots cs with
      | nil => exact absurd hcs (splitDots_ne_nil cs)
      | cons t ts => simp [splitDots, hc, ih, hcs]

theorem splitDots_of_no_dot (xs : List Char) (hx : ('.' : Char) ∉ xs) :
    splitDots xs = [xs] := by
  induction xs with
  | nil => rfl
  | cons c cs ih =>
    have hc : c ≠ '.' := fun hec => hx (hec ▸ List.mem_cons_self c cs)
    have hcs : ('.' : Char) ∉ cs := fun hm => hx (List.mem_cons_of_mem c hm)
    simp [splitDots, hc, ih hcs]

theorem string_three_parts_data (a b c : String) :
    (a ++ "." ++ b ++ "." ++ c).data = a.data ++ '.' :: (b.data ++ '.' :: c.data) := by
  have hdot : ".".data = ['.'] := rfl
  simp [String.data_append, hdot, List.append_assoc]

theorem jsSplitDot_three (a b c : String)
    (ha : ('.' : Char) ∉ a.data) (hb : ('.' : Char) ∉ b.data) (hc : ('.' : Char) ∉ c.data) :
    jsSplitDot (a ++ "." ++ b ++ "." ++ c) = [a, b, c] := by
  have heta : ∀ s : String, String.mk s.data = s := fun s => rfl
  simp [jsSplitDot, string_three_parts_data, splitDots_append_dot,
    splitDots_of_no_dot a.data ha, splitDots_of_no_dot b.data hb,
    splitDots_of_no_dot c.data hc, heta]

theorem getD_triple_zero {α : Type} (x y z d : α) : [x, y, z].getD 0 d = x := rfl

theorem getD_triple_one {α : Type} (x y z d : α) : [x, y, z].getD 1 d = y := rfl

theorem getD_triple_two {α : Type} (x y z d : α) : [x, y, z].getD 2 d = z := rfl

theorem verifyJWT_eval (P : Platform) (nowMs : Int) (a b secret : String)
    (header payload : JValue)
    (h1 : a ≠ "") (h2 : b ≠ "")
    (h3 : ('.' : Char) ∉ a.data) (h4 : ('.' : Char) ∉ b.data)
    (h5 : ('.' : Char) ∉ (b64ToB64Url (P.hmacSha256B64 secret (a ++ "." ++ b))).data)
    (h6 : b64ToB64Url (P.hmacSha256B64 secret (a ++ "." ++ b)) ≠ "")
    (h7 : decodeB64Json P a = some header)
    (h8 : jsProp header "alg" = some (some (JValue.str "HS256")))
    (h9 : decodeB64Json P b = some payload) :
    verifyJWT P nowMs
        (a ++ "." ++ b ++ "." ++ b64ToB64Url (P.hmacSha256B64 secret (a ++ "." ++ b)))
        secret =
      (match jsProp payload "exp" with
       | none => none
       | some none => some payload
       | some (some e) =>
         if jsTruthy e && jsNumTimes1000Le nowMs e then none else some payload) := by
  simp only [verifyJWT, jsSplitDot_three a b _ h3 h4 h5, getD_triple_zero,
    getD_triple_one, getD_triple_two, h1, h2, h6]
  rw [h7]
  simp only [h8]
  rw [h9]
  simp

theorem verifyJWT_parts_congr (P : Platform) (nowMs : Int) (t1 t2 secret : String)
    (e0 : (jsSplitDot t1).getD 0 "" = (jsSplitDot t2).getD 0 "")
    (e1 : (jsSplitDot t1).getD 1 "" = (jsSplitDot t2).getD 1 "")
    (e2 : (jsSplitDot t1).getD 2 "" = (jsSplitDot t2).getD 2 "") :
    verifyJWT P nowMs t1 secret = verifyJWT P nowMs t2 secret := by
  simp only [verifyJWT, e0, e1, e2]

theorem jsSplitDot_append_dot (t extra : String) :
    jsSplitDot (t ++ "." ++ extra) = jsSplitDot t ++ jsSplitDot extra := by
  have hdot : ".".data = ['.'] := rfl
  simp [jsSplitDot, String.data_append, hdot, List.append_assoc, splitDots_append_dot]

/-- Concrete test header object used by the witnesses below. -/
def headerHS : JValue := .obj [("alg", .str "HS256")]

/-- Test payload carrying no `exp` claim. -/
def payloadNoExp : JValue := .obj [("role", .str "admin")]

/-- Test payload with `exp: 0`. -/
def payloadExp0 : JValue := .obj [("role", .str "admin"), ("exp", .num 0)]

/-- Test payload with `exp: 2` (seconds). -/
def payloadExp2 : JValue := .obj [("role", .str "admin"), ("exp", .num 2)]

/-- A concrete platform instance for witnesses: a table-based JSON
decoder over the four fragments the witnesses use, and a constant HMAC
digest. -/
def parseTest : String → Option JValue
  | "AAAA" => some headerHS
  | "BBBB" => some payloadNoExp
  | "DDDD" => some (.obj [("role", .str "admin"), ("exp", .num 1)])
  | "EEEE" => some payloadExp0
  | "FFFF" => some payloadExp2
  | _ => none

/-- Table-based encoder matching `parseTest` on the values the
witnesses encode. -/
def encTest : JValue → String
  | .obj [("alg", .str "HS256")] => "AAAA"
  | .obj [("role", .str "admin")] => "BBBB"
  | .obj [("role", .str "admin"), ("exp", .num 1)] => "DDDD"
  | _ => "XXXX"

/-- The witness platform. -/
def PTest : Platform :=
  { parseJsonB64 := parseTest
    hmacSha256B64 := fun _ _ => "SGN0"
    encB64UrlJson := encTest }

/-- C1: the spec claims the selection fold realizes a total order in
which an extensionless key beats any `.json` key regardless of version,
independently of fold order.  The code contradicts this (and its own
comments): folding `[data v1, data.json v5]` chooses the `.json` key
because the version rule fires when the current choice is extensionless,
while the reverse order chooses the extensionless key — the fold is
order-dependent and does not implement the claimed order. -/
theorem c1_selection_fold_bug :
    chooseResource [⟨"collages/s/data", 1⟩, ⟨"collages/s/data.json", 5⟩] =
        some ⟨"collages/s/data.json", 5⟩ ∧
      chooseResource [⟨"collages/s/data.json", 5⟩, ⟨"collages/s/data", 1⟩] =
        some ⟨"collages/s/data", 1⟩ :=
  ⟨rfl, rfl⟩

/-- C4: the write-back does upload to the extensionless canonical key,
but re-resolution afterwards is not guaranteed to choose an
extensionless key: with per-key version numbering the fresh canonical
object can carry a lower version (v1) than a stale `.json` leftover
(v5), and the selection fold then picks the `.json` key when the
extensionless candidate is enumerated first. -/
theorem c4_canonicalization_bug :
    canonicalPid "collages/s/data.json" = "collages/s/data" ∧
      (chooseResource [⟨"collages/s/data", 1⟩, ⟨"collages/s/data.json", 5⟩]).map
        (fun r => hasJsonExt r.public_id) = some true :=
  ⟨rfl, rfl⟩

/-- C2 counterexample: the get-post handler's fetch URL for slug `s`
is not a version-qualified URL for any version/key pair — it is the
fixed, version-less `collages/s/data.json` address. -/
theorem c2_counterexample :
    ¬ ∃ v encodedKey, versionQualifiedUrl "demo" v encodedKey = getPostDataUrl "demo" "s" := by
  rintro ⟨v, k, hv⟩
  have hL : ("https://res.cloudinary.com/demo/raw/upload/v".data).length = 44 := by decide
  have key : (versionQualifiedUrl "demo" v k).data.take 44
      = "https://res.cloudinary.com/demo/raw/upload/v".data := by
    show (("https://res.cloudinary.com/demo/raw/upload/v".data ++ (toString v).data ++ ['/']) ++
        k.data).take 44 = _
    rw [List.append_assoc, List.append_assoc, List.take_append_eq_append_take, hL,
      Nat.sub_self, List.take_zero, List.append_nil, ← hL, List.take_length]
  rw [hv] at key
  exact absurd key (by decide)

/-- C2 amended: the two resolver handlers (list-posts STEP 3 and
update-visible step 2) do fetch through a version-qualified URL
embedding the chosen descriptor's exact version; get-post and
export-archive fetch the fixed version-less `collages/<slug>/data.json`
URL instead. -/
theorem c2_resolver_urls_versioned (cloud public_id : String) (version : Nat) :
    listPostsDataUrl cloud public_id version =
        versionQualifiedUrl cloud version
          (encodeURIComponent (public_id ++ (if hasJsonExt public_id then "" else ".json"))) ∧
      updateVisibleGetUrl cloud public_id version =
        versionQualifiedUrl cloud version
          (encodeURIComponent (public_id ++ (if hasJsonExt public_id then "" else ".json"))) :=
  ⟨rfl, rfl⟩

/-- Whether the export loop archives an item: it has a non-empty url
and its binary fetch succeeds. -/
def fetchSucceeds (fetchImg : String → Option (List Nat)) (it : ExportItem) : Bool :=
  match it.url with
  | none => false
  | some u => if u = "" then false else (fetchImg u).isSome

theorem exportEntriesGo_length (f : String → Option (List Nat)) :
    ∀ (items : List ExportItem) (idx : Nat),
      (exportEntriesGo f idx items).length = (items.filter (fetchSucceeds f)).length := by
  intro items
  induction items with
  | nil => intro idx; rfl
  | cons it rest ih =>
    intro idx
    cases hu : it.url with
    | none =>
      have hf : fetchSucceeds f it = false := by simp [fetchSucceeds, hu]
      simp [exportEntriesGo, hu, List.filter_cons, hf, ih idx]
    | some u =>
      by_cases hue : u = ""
      · have hf : fetchSucceeds f it = false := by simp [fetchSucceeds, hu, hue]
        simp [exportEntriesGo, hu, hue, List.filter_cons, hf, ih idx]
      · cases hfu : f u with
        | none =>
          have hf : fetchSucceeds f it = false := by simp [fetchSucceeds, hu, hue, hfu]
          simp [exportEntriesGo, hu, hue, hfu, List.filter_cons, hf, ih idx]
        | some buf =>
          have hf : fetchSucceeds f it = true := by simp [fetchSucceeds, hu, hue, hfu]
          simp [exportEntriesGo, hu, hue, hfu, List.filter_cons, hf, ih (idx + 1)]

theorem exportEntriesGo_entry_name (f : String → Option (List Nat)) :
    ∀ (items : List ExportItem) (idx i : Nat) (e : String × List Nat),
      (exportEntriesGo f idx items).get? i = some e →
      ∃ r, e.1 = pad2 (idx + i) ++ r := by
  intro items
  induction items with
  | nil => intro idx i e he; simp [exportEntriesGo] at he
  | cons it rest ih =>
    intro idx i e he
    cases hu : it.url with
    | none =>
      simp only [exportEntriesGo, hu] at he
      exact ih idx i e he
    | some u =>
      by_cases hue : u = ""
      · simp only [exportEntriesGo, hu, hue, if_pos] at he
        exact ih idx i e he
      · cases hfu : f u with
        | none =>
          simp only [exportEntriesGo, hu, hue, if_neg, hfu] at he
          exact ih idx i e he
        | some buf =>
          simp only [exportEntriesGo, hu, hue, if_neg, hfu] at he
          cases i with
          | zero =>
            simp only [List.get?] at he
            refine ⟨(if (⟨((safeName (match it.caption with | some c => c | none => "")).data.take 40)⟩ : String) ≠ ""
                then "_" ++ (⟨((safeName (match it.caption with | some c => c | none => "")).data.take 40)⟩ : String) else "") ++ "." ++
                (match scanExt u.data with | some e => (⟨e⟩ : String) | none => "jpg"), ?_⟩
            cases he
            simp [String.append_assoc, Nat.add_zero]
          | succ j =>
            simp only [List.get?] at he
            have harg : idx + 1 + j = idx + (j + 1) := by omega
            obtain ⟨r, hr⟩ := ih (idx + 1) j e he
            rw [harg] at hr
            exact ⟨r, hr⟩

/-- The export-archive items and fetchers used by the C8 evidence: the
first item's binary fetch fails under `fetchC8` and succeeds under
`fetchAllOk`. -/
def itemsC8 : List ExportItem :=
  [⟨some "https://x/bad.jpg", none⟩, ⟨some "https://x/good.jpg", none⟩]

/-- Fetcher under which only the second item of `itemsC8` succeeds. -/
def fetchC8 : String → Option (List Nat) :=
  fun u => if u = "https://x/good.jpg" then some [1] else none

/-- Fetcher under which every fetch succeeds. -/
def fetchAllOk : String → Option (List Nat) :=
  fun _ => some [1]

/-- C8 counterexample: when the first item's fetch fails, the second
item's archive entry is named `01_untitled.jpg`, reusing the failed
item's index; when the first item's fetch succeeds, the very same
second item is named `02_untitled.jpg` — so an item's index position
depends on earlier fetch outcomes and a skipped index is reused,
contradicting the claim. -/
theorem c8_counterexample :
    exportEntries fetchC8 itemsC8 = [("01_untitled.jpg", [1])] ∧
      exportEntries fetchAllOk itemsC8 =
        [("01_untitled.jpg", [1]), ("02_untitled.jpg", [1])] :=
  ⟨rfl, rfl⟩

/-- C8 amended: an item without a url or whose binary fetch fails is
skipped and contributes no archive entry (the entry count equals the
number of successfully fetched items), and the index counter advances
only on success, so the k-th surviving entry is always numbered k
(starting at 01) — a failed item's index is therefore reused by the
next successful item rather than left as a gap. -/
theorem c8_export_indices (f : String → Option (List Nat)) (items : List ExportItem) :
    (exportEntries f items).length = (items.filter (fetchSucceeds f)).length ∧
      ∀ (i : Nat) (e : String × List Nat),
        (exportEntries f items).get? i = some e → ∃ r, e.1 = pad2 (1 + i) ++ r :=
  ⟨exportEntriesGo_length f items 1,
    fun i e he => exportEntriesGo_entry_name f items 1 i e he⟩

/-- C8 witness: the amended theorem applied to the all-success run on
`itemsC8` shows the second entry is numbered 02. -/
theorem c8_export_indices_witness :
    ∃ r, ("02_untitled.jpg", ([1] : List Nat)).1 = pad2 (1 + 1) ++ r :=
  (c8_export_indices fetchAllOk itemsC8).2 1 ("02_untitled.jpg", [1]) (by rfl)

/-- C3 counterexample: a token with four dot-separated segments — a
valid three-part token with `.zz` appended — still verifies, because
the destructuring `const [h,p,s] = token.split('.')` silently ignores
segments beyond the third; the claim that such tokens are rejected is
false. -/
theorem c3_counterexample :
    verifyJWT PTest 1000 "AAAA.BBBB.SGN0.zz" "k" = some payloadNoExp ∧
      (jsSplitDot "AAAA.BBBB.SGN0.zz").length = 4 :=
  ⟨rfl, rfl⟩

/-- C3 amended: verification requires the first three dot-separated
segments to be non-empty (hence at least three segments), but segments
beyond the third are ignored entirely: appending `.extra` to any token
that already has three segments does not change the verification
result. -/
theorem c3_first_three_segments :
    (∀ (P : Platform) (nowMs : Int) (token secret : String) (payload : JValue),
        verifyJWT P nowMs token secret = some payload →
        (jsSplitDot token).getD 0 "" ≠ "" ∧ (jsSplitDot token).getD 1 "" ≠ "" ∧
          (jsSplitDot token).getD 2 "" ≠ "" ∧ 3 ≤ (jsSplitDot token).length) ∧
      ∀ (P : Platform) (nowMs : Int) (token extra secret : String),
        3 ≤ (jsSplitDot token).length →
        verifyJWT P nowMs (token ++ "." ++ extra) secret = verifyJWT P nowMs token secret := by
  constructor
  · intro P nowMs token secret payload hv
    simp only [verifyJWT] at hv
    have h0 : (jsSplitDot token).getD 0 "" ≠ "" := by
      intro heq; rw [heq] at hv; simp at hv
    have h1 : (jsSplitDot token).getD 1 "" ≠ "" := by
      intro heq; rw [heq] at hv; simp at hv
    have h2 : (jsSplitDot token).getD 2 "" ≠ "" := by
      intro heq; rw [heq] at hv; simp at hv
    refine ⟨h0, h1, h2, ?_⟩
    by_contra hlt
    exact h2 (List.getD_eq_default (jsSplitDot token) ""
      (show (jsSplitDot token).length ≤ 2 by omega))
  · intro P nowMs token extra secret hlen
    apply verifyJWT_parts_congr
    · rw [jsSplitDot_append_dot]
      exact List.getD_append _ _ _ _ (by omega)
    · rw [jsSplitDot_append_dot]
      exact List.getD_append _ _ _ _ (by omega)
    · rw [jsSplitDot_append_dot]
      exact List.getD_append _ _ _ _ (by omega)

/-- C3 witness: both parts of the amended theorem applied to the
concrete valid token `AAAA.BBBB.SGN0` on the witness platform. -/
theorem c3_first_three_segments_witness :
    ((jsSplitDot "AAAA.BBBB.SGN0").getD 0 "" ≠ "" ∧
        (jsSplitDot "AAAA.BBBB.SGN0").getD 1 "" ≠ "" ∧
        (jsSplitDot "AAAA.BBBB.SGN0").getD 2 "" ≠ "" ∧
        3 ≤ (jsSplitDot "AAAA.BBBB.SGN0").length) ∧
      verifyJWT PTest 1000 ("AAAA.BBBB.SGN0" ++ "." ++ "zz") "k" =
        verifyJWT PTest 1000 "AAAA.BBBB.SGN0" "k" :=
  ⟨c3_first_three_segments.1 PTest 1000 "AAAA.BBBB.SGN0" "k" payloadNoExp (by rfl),
    c3_first_three_segments.2 PTest 1000 "AAAA.BBBB.SGN0" "zz" "k" (by decide)⟩

/-- C6: a token built by the (spec-modelled) issue operation verifies
under the hand-rolled `verifyJWT` with the same secret immediately
after issuance — at the very `Date.now()` from which the issue time in
seconds was derived — and yields claims with role `admin`, accepted by
`requireAdmin`.  The platform hypotheses state that the base64url JSON
encoding round-trips through `decodeB64Json` on the two encoded values
and that encodings and signature are non-empty and dot-free, as real
base64url guarantees. -/
theorem c6_issue_verify_round_trip (P : Platform) (nowMs ttl : Int) (secret : String)
    (hnow : 0 ≤ nowMs) (httl : 1 ≤ ttl) (hsec : secret ≠ "")
    (hh1 : P.encB64UrlJson issueHeader ≠ "")
    (hh2 : ('.' : Char) ∉ (P.encB64UrlJson issueHeader).data)
    (hh3 : decodeB64Json P (P.encB64UrlJson issueHeader) = some issueHeader)
    (hp1 : P.encB64UrlJson (issuePayload (nowMs / 1000) ttl) ≠ "")
    (hp2 : ('.' : Char) ∉ (P.encB64UrlJson (issuePayload (nowMs / 1000) ttl)).data)
    (hp3 : decodeB64Json P (P.encB64UrlJson (issuePayload (nowMs / 1000) ttl)) =
      some (issuePayload (nowMs / 1000) ttl))
    (hs1 : b64ToB64Url (P.hmacSha256B64 secret (P.encB64UrlJson issueHeader ++ "." ++
      P.encB64UrlJson (issuePayload (nowMs / 1000) ttl))) ≠ "")
    (hs2 : ('.' : Char) ∉ (b64ToB64Url (P.hmacSha256B64 secret
      (P.encB64UrlJson issueHeader ++ "." ++
        P.encB64UrlJson (issuePayload (nowMs / 1000) ttl)))).data) :
    verifyJWT P nowMs (issueToken P (nowMs / 1000) ttl secret) secret =
        some (issuePayload (nowMs / 1000) ttl) ∧
      requireAdmin P nowMs (some (issueToken P (nowMs / 1000) ttl secret)) secret =
        some (issuePayload (nowMs / 1000) ttl) ∧
      jsProp (issuePayload (nowMs / 1000) ttl) "role" = some (some (JValue.str "admin")) := by
  have halg : jsProp issueHeader "alg" = some (some (JValue.str "HS256")) := rfl
  have htok : issueToken P (nowMs / 1000) ttl secret =
      P.encB64UrlJson issueHeader ++ "." ++
        P.encB64UrlJson (issuePayload (nowMs / 1000) ttl) ++ "." ++
        b64ToB64Url (P.hmacSha256B64 secret (P.encB64UrlJson issueHeader ++ "." ++
          P.encB64UrlJson (issuePayload (nowMs / 1000) ttl))) := rfl
  have hexp : jsProp (issuePayload (nowMs / 1000) ttl) "exp" =
      some (some (JValue.num (nowMs / 1000 + ttl))) := rfl
  have hcond : (jsTruthy (JValue.num (nowMs / 1000 + ttl)) &&
      jsNumTimes1000Le nowMs (JValue.num (nowMs / 1000 + ttl))) = false := by
    have hne : nowMs / 1000 + ttl ≠ 0 := by omega
    have hlt : ¬ (nowMs ≥ (nowMs / 1000 + ttl) * 1000) := by omega
    simp [jsTruthy, jsNumTimes1000Le, jsToNumber, hne, hlt]
  have hver : verifyJWT P nowMs (issueToken P (nowMs / 1000) ttl secret) secret =
      some (issuePayload (nowMs / 1000) ttl) := by
    rw [htok, verifyJWT_eval P nowMs (P.encB64UrlJson issueHeader)
      (P.encB64UrlJson (issuePayload (nowMs / 1000) ttl)) secret issueHeader
      (issuePayload (nowMs / 1000) ttl) hh1 hp1 hh2 hp2 hs2 hs1 hh3 halg hp3, hexp]
    simp [hcond]
  refine ⟨hver, ?_, rfl⟩
  simp only [requireAdmin, hsec, hver]
  rfl

/-- C6 witness: the round-trip theorem at `nowMs = 0`, `ttl = 1`,
secret `k` on the concrete witness platform. -/
theorem c6_issue_verify_round_trip_witness :
    verifyJWT PTest 0 (issueToken PTest (0 / 1000) 1 "k") "k" =
      some (issuePayload (0 / 1000) 1) :=
  (c6_issue_verify_round_trip PTest 0 1 "k" (by decide) (by decide) (by decide)
    (by decide) (by decide) (by rfl) (by decide) (by decide) (by rfl)
    (by decide) (by decide)).1

/-- C7 counterexample: a token whose signature and header checks pass
and whose payload contains `exp: 0` verifies at `Date.now() = 5000`,
although 5000 is not strictly before `0 * 1000` — the expiry check is
skipped for a falsy `exp`, so the claim's "only when" direction fails. -/
theorem c7_counterexample :
    verifyJWT PTest 5000 "AAAA.EEEE.SGN0" "k" = some payloadExp0 ∧
      jsProp payloadExp0 "exp" = some (some (JValue.num 0)) ∧
      ¬ ((5000 : Int) < 0 * 1000) :=
  ⟨rfl, rfl, by decide⟩

/-- C7 amended: for a token passing signature and header checks whose
payload carries a truthy (non-zero) numeric `exp`, verification
succeeds exactly when the current time is strictly before `exp * 1000`
milliseconds; in particular a token whose `exp` already lies in the
past (such as one issued with `ttl = -1`) fails verification. -/
theorem c7_truthy_expiry (P : Platform) (nowMs : Int) (a b secret : String)
    (header payload : JValue) (n : Int)
    (h1 : a ≠ "") (h2 : b ≠ "")
    (h3 : ('.' : Char) ∉ a.data) (h4 : ('.' : Char) ∉ b.data)
    (h5 : ('.' : Char) ∉ (b64ToB64Url (P.hmacSha256B64 secret (a ++ "." ++ b))).data)
    (h6 : b64ToB64Url (P.hmacSha256B64 secret (a ++ "." ++ b)) ≠ "")
    (h7 : decodeB64Json P a = some header)
    (h8 : jsProp header "alg" = some (some (JValue.str "HS256")))
    (h9 : decodeB64Json P b = some payload)
    (hexp : jsProp payload "exp" = some (some (JValue.num n)))
    (hn : n ≠ 0) :
    (nowMs < n * 1000 →
        verifyJWT P nowMs
          (a ++ "." ++ b ++ "." ++ b64ToB64Url (P.hmacSha256B64 secret (a ++ "." ++ b)))
          secret = some payload) ∧
      (n * 1000 ≤ nowMs →
        verifyJWT P nowMs
          (a ++ "." ++ b ++ "." ++ b64ToB64Url (P.hmacSha256B64 secret (a ++ "." ++ b)))
          secret = none) := by
  rw [verifyJWT_eval P nowMs a b secret header payload h1 h2 h3 h4 h5 h6 h7 h8 h9, hexp]
  constructor
  · intro hlt
    have hb : (jsTruthy (JValue.num n) && jsNumTimes1000Le nowMs (JValue.num n)) = false := by
      have hnot : ¬ (nowMs ≥ n * 1000) := by omega
      simp [jsTruthy, jsNumTimes1000Le, jsToNumber, hn, hnot]
    simp [hb]
  · intro hge
    have hb : (jsTruthy (JValue.num n) && jsNumTimes1000Le nowMs (JValue.num n)) = true := by
      simp [jsTruthy, jsNumTimes1000Le, jsToNumber, hn]
      omega
    simp [hb]

/-- C7 witness: the amended theorem on a concrete token with `exp: 2`
— verification succeeds at 1500 ms and fails at 9000 ms. -/
theorem c7_truthy_expiry_witness :
    verifyJWT PTest 1500 ("AAAA" ++ "." ++ "FFFF" ++ "." ++
        b64ToB64Url (PTest.hmacSha256B64 "k" ("AAAA" ++ "." ++ "FFFF"))) "k" =
      some payloadExp2 ∧
      verifyJWT PTest 9000 ("AAAA" ++ "." ++ "FFFF" ++ "." ++
        b64ToB64Url (PTest.hmacSha256B64 "k" ("AAAA" ++ "." ++ "FFFF"))) "k" = none :=
  ⟨(c7_truthy_expiry PTest 1500 "AAAA" "FFFF" "k" headerHS payloadExp2 2 (by decide)
      (by decide) (by decide) (by decide) (by decide) (by decide) (by rfl) (by rfl)
      (by rfl) (by rfl) (by decide)).1 (by decide),
    (c7_truthy_expiry PTest 9000 "AAAA" "FFFF" "k" headerHS payloadExp2 2 (by decide)
      (by decide) (by decide) (by decide) (by decide) (by decide) (by rfl) (by rfl)
      (by rfl) (by rfl) (by decide)).2 (by decide)⟩

/-- C10: for a token passing signature and header checks whose payload
has a falsy `exp` — absent from the object, `null`, or the number 0 —
the expiry comparison is skipped entirely and verification returns the
payload at every current time. -/
theorem c10_falsy_exp_skipped (P : Platform) (nowMs : Int) (a b secret : String)
    (header payload : JValue)
    (h1 : a ≠ "") (h2 : b ≠ "")
    (h3 : ('.' : Char) ∉ a.data) (h4 : ('.' : Char) ∉ b.data)
    (h5 : ('.' : Char) ∉ (b64ToB64Url (P.hmacSha256B64 secret (a ++ "." ++ b))).data)
    (h6 : b64ToB64Url (P.hmacSha256B64 secret (a ++ "." ++ b)) ≠ "")
    (h7 : decodeB64Json P a = some header)
    (h8 : jsProp header "alg" = some (some (JValue.str "HS256")))
    (h9 : decodeB64Json P b = some payload)
    (hexp : jsProp payload "exp" = some none ∨
      ∃ e, jsProp payload "exp" = some (some e) ∧ jsTruthy e = false) :
    verifyJWT P nowMs
        (a ++ "." ++ b ++ "." ++ b64ToB64Url (P.hmacSha256B64 secret (a ++ "." ++ b)))
        secret = some payload := by
  rw [verifyJWT_eval P nowMs a b secret header payload h1 h2 h3 h4 h5 h6 h7 h8 h9]
  rcases hexp with he | ⟨e, he, hte⟩
  · rw [he]
  · rw [he]
    simp [hte]

/-- C10 witness: a token with `exp: 0` verifies even at a huge current
time. -/
theorem c10_falsy_exp_skipped_witness :
    verifyJWT PTest 999999999999 ("AAAA" ++ "." ++ "EEEE" ++ "." ++
        b64ToB64Url (PTest.hmacSha256B64 "k" ("AAAA" ++ "." ++ "EEEE"))) "k" =
      some payloadExp0 :=
  c10_falsy_exp_skipped PTest 999999999999 "AAAA" "EEEE" "k" headerHS payloadExp0
    (by decide) (by decide) (by decide) (by decide) (by decide) (by decide)
    (by rfl) (by rfl) (by rfl) (Or.inr ⟨JValue.num 0, rfl, rfl⟩)

/-- C9: the embedded `verifyJWT` is total — every run yields either the
invalid result (`none`, the value the surrounding `try`/`catch` maps
every thrown decoding exception to) or a claims payload; in particular
a decoding exception on the header segment (modelled by the platform
decoder returning `none`) yields the invalid result rather than
propagating. -/
theorem c9_verify_total (P : Platform) (nowMs : Int) (token secret : String) :
    (verifyJWT P nowMs token secret = none ∨
        ∃ payload, verifyJWT P nowMs token secret = some payload) ∧
      (decodeB64Json P ((jsSplitDot token).getD 0 "") = none →
        verifyJWT P nowMs token secret = none) := by
  constructor
  · cases hv : verifyJWT P nowMs token secret with
    | none => exact Or.inl rfl
    | some payload => exact Or.inr ⟨payload, rfl⟩
  · intro hdec
    rw [List.getD_eq_getElem?_getD] at hdec
    simp [verifyJWT, hdec]

/-- Platform whose JSON decoder always throws. -/
def PNone : Platform :=
  { parseJsonB64 := fun _ => none
    hmacSha256B64 := fun _ _ => "SGN0"
    encB64UrlJson := fun _ => "XXXX" }

/-- C9 witness: on a platform whose decoder throws on everything, the
structurally well-formed token `a.b.c` is mapped to the invalid result. -/
theorem c9_verify_total_witness :
    verifyJWT PNone 0 "a.b.c" "k" = none :=
  (c9_verify_total PNone 0 "a.b.c" "k").2 (by rfl)

/-- C5: without the show-hidden opt-in (or without a validated admin
token the handler answers 401, so no list is produced), every returned
item has `visible = true` — and an item built from a record whose
stored `visible` field is `false` has `visible = false`, hence is
excluded; with the show-hidden flag and a valid admin token the
returned list is exactly the unfiltered fetched set (up to the date
sort). -/
theorem c5_visibility_filter (P : Platform) (nowMs : Int) (tok : Option String)
    (secret : String) (want : Bool) (dateKey : ListedItem → Int)
    (results : List (Option ListedItem)) (allow : Bool)
    (hallow : allowShowHiddenOf want (requireAdmin P nowMs tok secret) = some allow) :
    (allow = false → ∀ it ∈ finalItems false dateKey results, it.visible = true) ∧
      (allow = true →
        List.Perm (finalItems true dateKey results) (results.filterMap id)) ∧
      (allow = true → want = true ∧ (requireAdmin P nowMs tok secret).isSome = true) ∧
      (∀ slug data, jsProp data "visible" = some (some (JValue.bool false)) →
        (mkListedItem slug data).visible = false) := by
  refine ⟨?_, ?_, ?_, ?_⟩
  · intro _ it hmem
    simp only [finalItems, Bool.not_false, if_true, List.mem_filter] at hmem
    exact hmem.2
  · intro _
    simp only [finalItems, Bool.not_true, Bool.false_eq_true, if_false]
    exact List.perm_insertionSort _ _
  · intro hal
    subst hal
    cases hw : want with
    | false =>
      rw [hw] at hallow
      simp [allowShowHiddenOf] at hallow
    | true =>
      rw [hw] at hallow
      cases hra : requireAdmin P nowMs tok secret with
      | none =>
        rw [hra] at hallow
        simp [allowShowHiddenOf] at hallow
      | some payload => simp [hra]
  · intro slug data hd
    simp [mkListedItem, hd]

/-- C5 witness: the theorem applied to a non-admin request without the
show-hidden flag, at a concrete record whose stored `visible` field is
`false` — the shaped item carries `visible = false` and is therefore
excluded by the filter conjunct. -/
theorem c5_visibility_filter_witness :
    (mkListedItem "a" (JValue.obj [("visible", JValue.bool false)])).visible = false :=
  (c5_visibility_filter PTest 0 none "" false (fun _ => 0)
    [some (mkListedItem "a" (JValue.obj []))] false (by rfl)).2.2.2 "a"
    (JValue.obj [("visible", JValue.bool false)]) (by rfl)
